import Mathlib

/-!
Verification of the ArmorIQ customer SDK intent-commitment layer.

The development embeds, as executable Lean definitions, the parts of the
SDK that decide authorization locally: JSON canonicalization as performed
by `json.dumps(value, sort_keys=True, separators=(",", ":"),
ensure_ascii=True)`, the SHA-256 value digest, the `IntentToken` model,
and the local decision pipelines of `ArmorIQClient.invoke`,
`ArmorIQClient.verify_token`, `ArmorIQClient.get_intent_token`,
`ArmorIQClient.delegate` (from `armoriq_sdk/client.py` and
`armoriq_sdk/models.py`), plus `Client.create_plan` and `Plan.to_dict`
(from `armoriq/client.py` and `armoriq/models.py`).  Network transport is
cut at the boundary: an operation that would send an HTTP request instead
returns the fully assembled request data, and responses are passed in as
explicit JSON arguments.
-/

/-- JSON-like values (mappings, sequences, strings, integers, booleans,
null).  Objects keep their key/value pairs in insertion order, as Python
dicts do, so that key-order (in)dependence of serialization is a real
question. -/
inductive Json where
  | null : Json
  | bool (b : Bool) : Json
  | num (n : Int) : Json
  | str (s : String) : Json
  | arr (items : List Json) : Json
  | obj (entries : List (String × Json)) : Json

/-- First value stored under a key, like a Python dict lookup (dicts have
unique keys, so first = only). -/
def jlookup : List (String × Json) → String → Option Json
  | [], _ => none
  | (k, v) :: kvs, key => if k = key then some v else jlookup kvs key

/-- Python `dict.get(key, default)` on a JSON object; on a non-object the
surrounding code never calls `.get`, so any default-producing use below is
commented at its call site. -/
def Json.getD (j : Json) (key : String) (d : Json) : Json :=
  match j with
  | .obj kvs => (jlookup kvs key).getD d
  | _ => d

/-- Python truthiness of a JSON-like value (`bool(x)`): None, False, 0,
empty string, empty list and empty dict are falsy. -/
def pyTruthy : Json → Bool
  | .null => false
  | .bool b => b
  | .num n => n != 0
  | .str s => s != ""
  | .arr xs => !xs.isEmpty
  | .obj kvs => !kvs.isEmpty

/-- Lowercase hexadecimal digit, as used by `'\\u{0:04x}'` formatting and
`hexdigest()`. -/
def hexDigit (n : Nat) : Char :=
  if n < 10 then Char.ofNat (48 + n) else Char.ofNat (87 + n)

/-- Four lowercase hex digits of a value below 2^16. -/
def hex4 (n : Nat) : String :=
  ⟨[hexDigit (n / 4096 % 16), hexDigit (n / 256 % 16),
    hexDigit (n / 16 % 16), hexDigit (n % 16)]⟩

/-- CPython `json` ASCII string escaping for one character: quote and
backslash get two-character escapes, the five short control escapes are
used where they exist, every other character outside 0x20..0x7e becomes
`\uXXXX` (a surrogate pair above 0xffff); characters 0x20..0x7e pass
through. -/
def escapeChar (c : Char) : String :=
  let n := c.toNat
  if n = 34 then "\\\""
  else if n = 92 then "\\\\"
  else if n = 8 then "\\b"
  else if n = 9 then "\\t"
  else if n = 10 then "\\n"
  else if n = 12 then "\\f"
  else if n = 13 then "\\r"
  else if 32 ≤ n && n ≤ 126 then String.singleton c
  else if n < 65536 then "\\u" ++ hex4 n
  else "\\u" ++ hex4 (55296 + (n - 65536) / 1024) ++
       "\\u" ++ hex4 (56320 + (n - 65536) % 1024)

/-- A JSON string literal under `ensure_ascii=True`. -/
def encodeString (s : String) : String :=
  "\"" ++ String.join (s.toList.map escapeChar) ++ "\""

/-- Key ordering used by `sort_keys=True`: Python `sorted` compares the
key strings by code points, which is exactly Lean's `String` order. -/
def keyLe (p q : String × Json) : Bool := p.1 ≤ q.1

/-- Insert one pair into a key-sorted list of pairs. -/
def insertPair (p : String × Json) : List (String × Json) → List (String × Json)
  | [] => [p]
  | q :: qs => if keyLe p q then p :: q :: qs else q :: insertPair p qs

/-- Sort key/value pairs by key (insertion sort). -/
def sortPairs : List (String × Json) → List (String × Json)
  | [] => []
  | p :: ps => insertPair p (sortPairs ps)

mutual
/-- Recursively sort every object's entries by key; this is the
reordering that `sort_keys=True` applies while serializing. -/
def sortKeys : Json → Json
  | .null => .null
  | .bool b => .bool b
  | .num n => .num n
  | .str s => .str s
  | .arr xs => .arr (sortKeysList xs)
  | .obj kvs => .obj (sortPairs (sortKeysEntries kvs))

def sortKeysList : List Json → List Json
  | [] => []
  | x :: xs => sortKeys x :: sortKeysList xs

def sortKeysEntries : List (String × Json) → List (String × Json)
  | [] => []
  | (k, v) :: kvs => (k, sortKeys v) :: sortKeysEntries kvs
end

mutual
/-- Serialization with separators `(",", ":")` and no whitespace; object
entries are emitted in the order they appear (sorting is done by
`sortKeys` first). -/
def dumpJson : Json → String
  | .null => "null"
  | .bool true => "true"
  | .bool false => "false"
  | .num n => toString n
  | .str s => encodeString s
  | .arr xs => "[" ++ dumpList xs ++ "]"
  | .obj kvs => "\x7b" ++ dumpEntries kvs ++ "\x7d"

def dumpList : List Json → String
  | [] => ""
  | [x] => dumpJson x
  | x :: y :: xs => dumpJson x ++ "," ++ dumpList (y :: xs)

def dumpEntries : List (String × Json) → String
  | [] => ""
  | [(k, v)] => encodeString k ++ ":" ++ dumpJson v
  | (k, v) :: e :: kvs =>
      encodeString k ++ ":" ++ dumpJson v ++ "," ++ dumpEntries (e :: kvs)
end

/-- `json.dumps(v, sort_keys=True, separators=(",", ":"),
ensure_ascii=True)`, the canonical serialization used for the value
digest in `ArmorIQClient.invoke`. -/
def canonicalJson (v : Json) : String := dumpJson (sortKeys v)

/-- UTF-8 bytes of one character (`str.encode("utf-8")` for one code
point). -/
def utf8Bytes (c : Char) : List Nat :=
  let n := c.toNat
  if n < 128 then [n]
  else if n < 2048 then [192 + n / 64, 128 + n % 64]
  else if n < 65536 then [224 + n / 4096, 128 + n / 64 % 64, 128 + n % 64]
  else [240 + n / 262144, 128 + n / 4096 % 64, 128 + n / 64 % 64, 128 + n % 64]

/-- `s.encode("utf-8")` as a byte list. -/
def strUtf8 (s : String) : List Nat := (s.toList.map utf8Bytes).join

/-- Truncation to a 32-bit word. -/
def w32 (n : Nat) : Nat := n % 4294967296

/-- Right rotation of a 32-bit word, written arithmetically: the low `k`
bits wrap around to the top. -/
def rotr32 (k x : Nat) : Nat := x / 2 ^ k + x % 2 ^ k * 2 ^ (32 - k)

/-- Bitwise complement of a 32-bit word. -/
def not32 (x : Nat) : Nat := 4294967295 - x

/-- SHA-256 round constants (FIPS 180-4). -/
def sha256K : List Nat :=
  [1116352408, 1899447441, 3049323471, 3921009573, 961987163, 1508970993,
   2453635748, 2870763221, 3624381080, 310598401, 607225278, 1426881987,
   1925078388, 2162078206, 2614888103, 3248222580, 3835390401, 4022224774,
   264347078, 604807628, 770255983, 1249150122, 1555081692, 1996064986,
   2554220882, 2821834349, 2952996808, 3210313671, 3336571891, 3584528711,
   113926993, 338241895, 666307205, 773529912, 1294757372, 1396182291,
   1695183700, 1986661051, 2177026350, 2456956037, 2730485921, 2820302411,
   3259730800, 3345764771, 3516065817, 3600352804, 4094571909, 275423344,
   430227734, 506948616, 659060556, 883997877, 958139571, 1322822218,
   1537002063, 1747873779, 1955562222, 2024104815, 2227730452, 2361852424,
   2428436474, 2756734187, 3204031479, 3329325298]

/-- SHA-256 initial hash state. -/
def sha256InitH : List Nat :=
  [1779033703, 3144134277, 1013904242, 2773480762,
   1359893119, 2600822924, 528734635, 1541459225]

/-- Big-endian bytes of a 64-bit length field. -/
def be64 (n : Nat) : List Nat :=
  [n / 72057594037927936 % 256, n / 281474976710656 % 256,
   n / 1099511627776 % 256, n / 4294967296 % 256,
   n / 16777216 % 256, n / 65536 % 256, n / 256 % 256, n % 256]

/-- Big-endian bytes of a 32-bit word. -/
def be32 (n : Nat) : List Nat :=
  [n / 16777216 % 256, n / 65536 % 256, n / 256 % 256, n % 256]

/-- SHA-256 padding: a 0x80 byte, zeros to 56 mod 64, then the bit length
in 64-bit big-endian form. -/
def padMessage (msg : List Nat) : List Nat :=
  let L := msg.length
  let k := (119 - L % 64) % 64
  msg ++ [128] ++ List.replicate k 0 ++ be64 (8 * L)

/-- Split the padded message into 64-byte blocks. -/
def toBlocks (l : List Nat) : List (List Nat) :=
  if h : l = [] then []
  else
    l.take 64 :: toBlocks (l.drop 64)
termination_by l.length
decreasing_by
  simp only [List.length_drop]
  have : 0 < l.length := List.length_pos.mpr h
  omega

/-- Big-endian 32-bit words of a block. -/
def toWords : List Nat → List Nat
  | a :: b :: c :: d :: rest => (((a * 256 + b) * 256 + c) * 256 + d) :: toWords rest
  | _ => []

/-- Small sigma-0 schedule function. -/
def ssig0 (x : Nat) : Nat := w32 (rotr32 7 x) ^^^ w32 (rotr32 18 x) ^^^ x / 2 ^ 3

/-- Small sigma-1 schedule function. -/
def ssig1 (x : Nat) : Nat := w32 (rotr32 17 x) ^^^ w32 (rotr32 19 x) ^^^ x / 2 ^ 10

/-- Big sigma-0 compression function. -/
def bsig0 (x : Nat) : Nat := w32 (rotr32 2 x) ^^^ w32 (rotr32 13 x) ^^^ w32 (rotr32 22 x)

/-- Big sigma-1 compression function. -/
def bsig1 (x : Nat) : Nat := w32 (rotr32 6 x) ^^^ w32 (rotr32 11 x) ^^^ w32 (rotr32 25 x)

/-- Choose function. -/
def chFn (e f g : Nat) : Nat := (e &&& f) ^^^ (not32 e &&& g)

/-- Majority function. -/
def majFn (a b c : Nat) : Nat := (a &&& b) ^^^ (a &&& c) ^^^ (b &&& c)

/-- Append the next message-schedule word (W[t] from W[t-2], W[t-7],
W[t-15], W[t-16], where t is the current length). -/
def scheduleStep (w : List Nat) : List Nat :=
  let n := w.length
  let g := fun i => (w.drop (n - i)).headD 0
  w ++ [w32 (ssig1 (g 2) + g 7 + ssig0 (g 15) + g 16)]

/-- Extend the schedule `k` more words. -/
def buildSchedule : Nat → List Nat → List Nat
  | 0, w => w
  | k + 1, w => buildSchedule k (scheduleStep w)

/-- One round of the SHA-256 compression loop on the eight-word working
state, consuming one (round constant, schedule word) pair. -/
def compressStep (state : List Nat) (kw : Nat × Nat) : List Nat :=
  match state with
  | [a, b, c, d, e, f, g, h] =>
    let t1 := w32 (h + bsig1 e + chFn e f g + kw.1 + kw.2)
    let t2 := w32 (bsig0 a + majFn a b c)
    [w32 (t1 + t2), a, b, c, w32 (d + t1), e, f, g]
  | s => s

/-- Process one 64-byte block into the running hash state. -/
def compressBlock (H : List Nat) (block : List Nat) : List Nat :=
  let w := buildSchedule 48 (toWords block)
  let final := (sha256K.zip w).foldl compressStep H
  (H.zip final).map (fun p => w32 (p.1 + p.2))

/-- SHA-256 digest bytes of a byte-list message. -/
def sha256Bytes (msg : List Nat) : List Nat :=
  (((toBlocks (padMessage msg)).foldl compressBlock sha256InitH).map be32).join

/-- Two lowercase hex digits of a byte. -/
def byteHex (b : Nat) : String := ⟨[hexDigit (b / 16 % 16), hexDigit (b % 16)]⟩

/-- `hashlib.sha256(msg).hexdigest()`. -/
def sha256Hex (msg : List Nat) : String :=
  String.join ((sha256Bytes msg).map byteHex)

/-- The value digest computed in `ArmorIQClient.invoke`:
`hashlib.sha256(value_str.encode("utf-8")).hexdigest()`. -/
def valueDigest (value_str : String) : String := sha256Hex (strUtf8 value_str)

/-- A JSON value read as a string field, with a fallback used both when
the key was absent and when the value is not a string (pydantic would
reject a non-string there; the claims never exercise that path). -/
def asStr (j : Option Json) (d : String) : String :=
  match j with
  | some (.str s) => s
  | _ => d

/-- `IntentToken` from `armoriq_sdk/models.py`.  Timestamps are modeled
as integers; `policy`, `client_info` and `policy_validation` are JSON
payloads; `raw_token` is the dict built in `get_intent_token`. -/
structure IntentToken where
  token_id : String
  plan_hash : String
  plan_id : Option String
  signature : String
  issued_at : Int
  expires_at : Int
  policy : Json
  composite_identity : String
  client_info : Option Json
  policy_validation : Option Json
  step_proofs : List Json
  total_steps : Nat
  raw_token : List (String × Json)

/-- `IntentToken.is_expired`: `datetime.now().timestamp() > expires_at`,
with the clock passed explicitly. -/
def IntentToken.is_expired (t : IntentToken) (now : Int) : Bool :=
  now > t.expires_at

/-- `IntentToken.time_until_expiry`. -/
def IntentToken.time_until_expiry (t : IntentToken) (now : Int) : Int :=
  t.expires_at - now

/-- `model_config = ConfigDict(frozen=True)` on `IntentToken`. -/
structure ModelConfig where
  frozen : Bool

/-- The configured model behavior of `IntentToken` (models.py line 30). -/
def intentTokenModelConfig : ModelConfig := ⟨true⟩

/-- The assignable fields of `IntentToken`. -/
inductive TokenField where
  | token_id | plan_hash | plan_id | signature | issued_at | expires_at
  | policy | composite_identity | client_info | policy_validation
  | step_proofs | total_steps | raw_token

/-- Models pydantic `BaseModel.__setattr__`: assignment to a field of a
model raises a `ValidationError` exactly when the model's config is
frozen (otherwise pydantic performs the assignment). -/
def IntentToken.setAttrRaises (_f : TokenField) : Bool :=
  intentTokenModelConfig.frozen

/-- `ArmorIQClient.verify_token` (client.py lines 934-964): a local check
returning a bare boolean — expired tokens and tokens missing the
signature or plan hash both map to `False`; no cryptographic signature
verification is performed. -/
def verify_token (t : IntentToken) (now : Int) : Bool :=
  if t.is_expired now then false
  else if t.signature = "" || t.plan_hash = "" then false
  else true

/-- Errors raised by the local part of `ArmorIQClient.invoke`. -/
inductive InvokeError where
  | tokenExpired (token_id : String) (expired_at : Int)
  | intentMismatch (action : String)

/-- The HTTP request `invoke` would send: the verification-relevant
headers (CSRG path, value digest, Merkle proof) plus the selected step
index.  Assembling the rest of the JSON body is transport plumbing. -/
structure InvokeRequest where
  mcp : String
  action : String
  step_index : Nat
  csrg_path : String
  merkle_proof : Option Json
  value_digest : String

/-- `step.get("action") == action` for one plan step: true exactly when
the step is a dict whose "action" entry is the requested action string
(`isinstance(step, dict)` guard included). -/
def stepMatches (s : Json) (action : String) : Bool :=
  match s with
  | .obj kvs =>
    match jlookup kvs "action" with
    | some (.str a) => a == action
    | _ => false
  | _ => false

/-- The first-match scan `for idx, step in enumerate(steps): if ... :
step_index = idx; break`. -/
def findStepIndexAux (action : String) : Nat → List Json → Option Nat
  | _, [] => none
  | idx, s :: rest =>
      if stepMatches s action then some idx
      else findStepIndexAux action (idx + 1) rest

/-- Index of the first step whose action field equals `action`. -/
def findStepIndex (steps : List Json) (action : String) : Option Nat :=
  findStepIndexAux action 0 steps

/-- `plan = intent_token.raw_token.get("plan", {})` then
`steps = plan.get("steps", [])`.  A non-dict plan or a non-list steps
value would crash the Python `.get`/`enumerate`; the claims only concern
well-shaped plans, and those shapes are modeled as an empty step list. -/
def planStepsOf (raw_token : List (String × Json)) : List Json :=
  match (jlookup raw_token "plan").getD (.obj []) with
  | .obj kvs =>
    match (jlookup kvs "steps").getD (.arr []) with
    | .arr xs => xs
    | _ => []
  | _ => []

/-- Python truthiness of an optional JSON value (None is falsy). -/
def pyTruthyOpt : Option Json → Bool
  | none => false
  | some j => pyTruthy j

/-- The leaf value whose digest is sent: `step_obj.get("action", action)
if isinstance(step_obj, dict) else action`. -/
def leafValueFor (step_obj : Json) (action : String) : Json :=
  match step_obj with
  | .obj kvs => (jlookup kvs "action").getD (.str action)
  | _ => .str action

/-- The local decision pipeline of `ArmorIQClient.invoke` (client.py
lines 485-668), up to the point where the HTTP request to the proxy
would be sent:
1. expired token ⇒ raise `TokenExpiredException`;
2. scan the plan steps for the first one whose action field equals
   `action`; none ⇒ raise `IntentMismatchException`;
3. if the caller-supplied proof is falsy, take
   `step_proofs[step_index]` when available; attach the proof header
   only when the chosen proof is truthy;
4. set the CSRG path to `/steps/[step_index]/action` and the value
   digest to the SHA-256 of the canonical serialization of the step's
   action value. -/
def invoke (t : IntentToken) (now : Int) (mcp action : String)
    (merkle_proof : Option Json) : Except InvokeError InvokeRequest :=
  if t.is_expired now then
    .error (.tokenExpired t.token_id t.expires_at)
  else
    let steps := planStepsOf t.raw_token
    match findStepIndex steps action with
    | none => .error (.intentMismatch action)
    | some idx =>
      let mp :=
        if pyTruthyOpt merkle_proof then merkle_proof
        else if !t.step_proofs.isEmpty && t.step_proofs.length > idx then
          t.step_proofs[idx]?
        else merkle_proof
      let header_proof := if pyTruthyOpt mp then mp else none
      let step_obj := steps[idx]?.getD (.obj [])
      let leaf_value := leafValueFor step_obj action
      let value_str := canonicalJson leaf_value
      .ok
        { mcp := mcp
          action := action
          step_index := idx
          csrg_path := "/steps/[" ++ toString idx ++ "]/action"
          merkle_proof := header_proof
          value_digest := valueDigest value_str }

/-- The mutable state a client instance owns: the token cache created in
`__init__` (`self._token_cache: Dict[str, IntentToken] = {}`), plus an
instrumentation counter for POSTs to the backend token-issuance
endpoint. -/
structure ClientState where
  token_cache : List (String × IntentToken)
  issuance_requests : Nat

/-- State right after `__init__`: empty cache, no issuance calls yet. -/
def initialClientState : ClientState := ⟨[], 0⟩

/-- `ArmorIQClient.get_intent_token` (client.py lines 386-483), with the
backend's JSON response `data` passed in.  The POST to
`{backend}/iap/sdk/token` happens unconditionally (counted in
`issuance_requests`); nothing reads or writes `token_cache`.  On
`success` the `IntentToken` is built exactly as in the source, with
`issued_at = now` and `expires_at = now + validity`. -/
def get_intent_token (st : ClientState) (plan : Json) (policy : Option Json)
    (validity : Int) (now : Int) (data : List (String × Json)) :
    ClientState × Except String IntentToken :=
  let st' : ClientState :=
    { token_cache := st.token_cache
      issuance_requests := st.issuance_requests + 1 }
  if !pyTruthyOpt (jlookup data "success") then
    (st', .error ("Token issuance failed: " ++
      asStr (jlookup data "message") "Unknown error"))
  else
    let token_data := (jlookup data "token").getD (.obj [])
    let raw_token : List (String × Json) :=
      [("plan", plan),
       ("token", token_data),
       ("plan_hash", (jlookup data "plan_hash").getD .null),
       ("merkle_root", (jlookup data "merkle_root").getD .null),
       ("intent_reference", (jlookup data "intent_reference").getD .null),
       ("composite_identity", (jlookup data "composite_identity").getD (.str ""))]
    let steps :=
      match plan.getD "steps" (.arr []) with
      | .arr xs => xs
      | _ => []
    let tok : IntentToken :=
      { token_id := asStr (jlookup data "intent_reference") "unknown"
        plan_hash := asStr (jlookup data "plan_hash") ""
        plan_id := match jlookup data "plan_id" with
          | some (.str s) => some s
          | _ => none
        signature := match token_data with
          | .obj kvs => asStr (jlookup kvs "signature") ""
          | _ => ""
        issued_at := now
        expires_at := now + validity
        policy := policy.getD (.obj [])
        composite_identity := asStr (jlookup data "composite_identity") ""
        client_info := jlookup data "client_info"
        policy_validation := jlookup data "policy_validation"
        step_proofs := match jlookup data "step_proofs" with
          | some (.arr xs) => xs
          | _ => []
        total_steps := steps.length
        raw_token := raw_token }
    (st', .ok tok)

/-- What a `delegate` call ultimately raises when it fails, or the
exception value it constructs: either a `DelegationException` or a
`TypeError` escaping from a bad constructor call. -/
inductive RaisedError where
  | delegationExc (message : String)
  | typeError (message : String)

/-- The declared parameters of `DelegationException.__init__`
(exceptions.py lines 75-88): `(self, message, target_agent=None)`. -/
def delegationExceptionParams : List String := ["message", "target_agent"]

/-- Python `TypeError` text for an unexpected keyword argument. -/
def typeErrMsg (k : String) : String :=
  "got an unexpected keyword argument " ++ k

/-- Calling `DelegationException(message, **kwargs)`: a keyword argument
whose name is not a declared parameter makes the call itself raise
`TypeError` instead of constructing the exception. -/
def raiseDelegationException (message : String) (kwargs : List String) :
    RaisedError :=
  match kwargs.find? (fun k => !delegationExceptionParams.contains k) with
  | some k => .typeError (typeErrMsg k)
  | none => .delegationExc message

/-- The `except httpx.HTTPStatusError` handler of `ArmorIQClient.delegate`
(client.py lines 921-927): it executes
`raise DelegationException(msg, delegation_id=..., status_code=...)`.
An exception raised inside an except-handler propagates out of the
function; the sibling `except Exception` clause of the same `try` does
not catch it. -/
def delegateHttpError (_status : Nat) (body : String) : RaisedError :=
  raiseDelegationException ("Delegation failed: " ++ body)
    ["delegation_id", "status_code"]

/-- `data.get("delegation") or data.get("delegated_token") or
data.get("new_token")`, then the truthiness test
`if not delegated_token_data`. -/
def delegationPayload (data : List (String × Json)) : Option Json :=
  let cand := fun k =>
    match jlookup data k with
    | some v => if pyTruthy v then some v else none
    | none => none
  (cand "delegation").orElse (fun _ => (cand "delegated_token").orElse
    (fun _ => cand "new_token"))

/-- `DelegationResult` (models.py), restricted to the fields `delegate`
fills in. -/
structure DelegationResult where
  delegation_id : String
  delegated_token : IntentToken
  delegate_public_key : String
  expires_at : Int
  status : String

/-- The response-parsing half of `ArmorIQClient.delegate` (client.py
lines 880-919), with the delegation service's JSON response `data`
passed in.  A missing/falsy delegation payload triggers
`DelegationException(..., delegation_id=...)`, whose bad keyword raises
`TypeError` inside the try body; the `except Exception` handler wraps it
into `DelegationException("Delegation request error: ...")`.  On success
the delegated `IntentToken` is built field by field from the response
dict with the source's defaults: `plan_hash` falls back to the parent's,
`step_proofs` falls back to the empty list, and `raw_token` is
`{"token": delegated_token_data}`. -/
def delegate (parent : IntentToken) (delegate_public_key : String)
    (now : Int) (data : List (String × Json)) :
    Except RaisedError DelegationResult :=
  match delegationPayload data with
  | none =>
      .error (.delegationExc ("Delegation request error: " ++
        typeErrMsg "delegation_id"))
  | some dtd =>
    let kvs := match dtd with | .obj kvs => kvs | _ => []
    let tok : IntentToken :=
      { token_id := asStr (jlookup kvs "token_id") ""
        plan_hash := asStr (jlookup kvs "plan_hash") parent.plan_hash
        plan_id := match jlookup kvs "plan_id" with
          | some (.str s) => some s
          | _ => none
        signature := asStr (jlookup kvs "signature") ""
        issued_at := match jlookup kvs "issued_at" with
          | some (.num n) => n
          | _ => now
        expires_at := match jlookup kvs "expires_at" with
          | some (.num n) => n
          | _ => 0
        policy := (jlookup kvs "policy").getD (.obj [])
        composite_identity := asStr (jlookup kvs "composite_identity") ""
        client_info := jlookup kvs "client_info"
        policy_validation := jlookup kvs "policy_validation"
        step_proofs := match jlookup kvs "step_proofs" with
          | some (.arr xs) => xs
          | _ => []
        total_steps := match jlookup kvs "total_steps" with
          | some (.num n) => n.toNat
          | _ => 0
        raw_token := [("token", dtd)] }
    .ok
      { delegation_id := asStr (jlookup data "delegation_id") tok.token_id
        delegated_token := tok
        delegate_public_key := delegate_public_key
        expires_at := tok.expires_at
        status := "delegated" }

namespace Armoriq

/-- `Action` dataclass from `armoriq/models.py`. -/
structure Action where
  tool : String
  params : Json
  description : Option String

/-- `Plan` dataclass from `armoriq/models.py`. -/
structure Plan where
  goal : String
  actions : List Action
  plan_id : Option String

/-- Python truthiness of an optional string (`if action.description`):
None and the empty string are falsy. -/
def strTruthy : Option String → Bool
  | none => false
  | some s => s != ""

/-- One action's dict inside `Plan.to_dict`: tool, params, and the
description only when truthy. -/
def Action.to_dict (a : Action) : Json :=
  Json.obj ([("tool", .str a.tool), ("params", a.params)] ++
    (if strTruthy a.description then
      [("description", .str (a.description.getD ""))]
    else []))

/-- `Plan.to_dict` (models.py lines 24-37): goal, the actions in order,
and the plan id only when truthy. -/
def Plan.to_dict (p : Plan) : Json :=
  Json.obj ([("goal", .str p.goal),
    ("actions", .arr (p.actions.map Action.to_dict))] ++
    (if strTruthy p.plan_id then
      [("plan_id", .str (p.plan_id.getD ""))]
    else []))

/-- `Client.create_plan` (armoriq/client.py lines 125-154): an empty
action list raises `PlanError`; otherwise `Plan(goal=goal,
actions=actions)` is returned (its `plan_id` defaults to None). -/
def create_plan (goal : String) (actions : List Action) :
    Except String Plan :=
  if actions.isEmpty then .error "Plan must contain at least one action"
  else .ok { goal := goal, actions := actions, plan_id := none }

end Armoriq

mutual
/-- Structural equality of JSON-like values as the spec uses the phrase:
equal scalars, pointwise-equal arrays, and objects with the same
key/value pairs independently of entry order (keys must be duplicate
free, as they are for values that came from Python dicts). -/
def structEqB : Json → Json → Bool
  | .null, .null => true
  | .bool a, .bool b => a == b
  | .num a, .num b => a == b
  | .str a, .str b => a == b
  | .arr xs, .arr ys => structEqArr xs ys
  | .obj a, .obj b =>
      keysNodupB a && keysNodupB b && a.length == b.length &&
        structEqObj a b
  | _, _ => false

def structEqArr : List Json → List Json → Bool
  | [], [] => true
  | x :: xs, y :: ys => structEqB x y && structEqArr xs ys
  | _, _ => false

def structEqObj : List (String × Json) → List (String × Json) → Bool
  | [], _ => true
  | (k, v) :: rest, b =>
      (match jlookup b k with
       | some w => structEqB v w
       | none => false) && structEqObj rest b

def keysNodupB : List (String × Json) → Bool
  | [] => true
  | (k, _) :: kvs => kvs.all (fun p => p.1 != k) && keysNodupB kvs
end

/-! ## Concrete sample data used by witnesses and counterexamples -/

/-- A plan step invoking action "A". -/
def stepA : Json :=
  .obj [("action", .str "A"), ("mcp", .str "m"),
        ("params", .obj [("x", .num 1)])]

/-- A plan step invoking action "B" with params `x = 1`. -/
def stepB1 : Json := .obj [("action", .str "B"), ("params", .obj [("x", .num 1)])]

/-- The same step with tampered params `x = 2`. -/
def stepB2 : Json := .obj [("action", .str "B"), ("params", .obj [("x", .num 2)])]

/-- A plan step invoking action "C". -/
def stepC : Json := .obj [("action", .str "C"), ("params", .obj [])]

/-- A sample Merkle proof value. -/
def proof0 : Json :=
  .arr [.obj [("sibling_hash", .str "h0"), ("position", .str "RIGHT")]]

/-- A sample Merkle proof value. -/
def proof1 : Json :=
  .arr [.obj [("sibling_hash", .str "h1"), ("position", .str "LEFT")]]

/-- A sample Merkle proof value. -/
def proof2 : Json :=
  .arr [.obj [("sibling_hash", .str "h2"), ("position", .str "LEFT")]]

/-- A token as issued for a three-step plan, expiring at time 100. -/
def mkTok (steps : List Json) (proofs : List Json) : IntentToken :=
  { token_id := "tok1", plan_hash := "PH", plan_id := none,
    signature := "sig", issued_at := 0, expires_at := 100,
    policy := .obj [], composite_identity := "ci",
    client_info := none, policy_validation := none,
    step_proofs := proofs, total_steps := steps.length,
    raw_token := [("plan", .obj [("goal", .str "g"), ("steps", .arr steps)]),
                  ("merkle_root", .str "MR")] }

/-- Token committed to the plan `[A, B(x=1), C]`. -/
def tok1 : IntentToken := mkTok [stepA, stepB1, stepC] [proof0, proof1, proof2]

/-- Token committed to the tampered plan `[A, B(x=2), C]`. -/
def tok2 : IntentToken := mkTok [stepA, stepB2, stepC] [proof0, proof1, proof2]

/-- Token committed to a plan with action "B" at both index 0 and 2. -/
def tokDup : IntentToken := mkTok [stepB1, stepC, stepB2] [proof0, proof1, proof2]

/-! ## C3: expiry is the first invocation gate -/

/-- C3: for every invoke call whose token has `expires_at` strictly in the
past, the invocation is denied with the token-expired error before any
step lookup, proof selection, or request assembly, regardless of the
token's signature, proofs, or any other field. -/
theorem invoke_expired_always_denied (t : IntentToken) (now : Int)
    (mcp action : String) (mp : Option Json) (h : now > t.expires_at) :
    invoke t now mcp action mp = .error (.tokenExpired t.token_id t.expires_at) := by
  have he : t.is_expired now = true := by
    simp [IntentToken.is_expired, h]
  simp [invoke, he]

/-- Witness for C3 at a concrete expired token. -/
theorem invoke_expired_always_denied_witness :
    (200 : Int) > tok1.expires_at ∧
      invoke tok1 200 "m" "B" none =
        .error (.tokenExpired tok1.token_id tok1.expires_at) :=
  ⟨by decide, invoke_expired_always_denied tok1 200 "m" "B" none (by decide)⟩

/-! ## C4: verify_token is a bare local boolean check -/

/-- An expired token whose other fields are present and well formed. -/
def expiredTok : IntentToken :=
  { tok1 with expires_at := 100 }

/-- An unexpired token with an empty signature. -/
def noSigTok : IntentToken :=
  { tok1 with signature := "", expires_at := 1000 }

/-- An unexpired token whose signature is an arbitrary string no
authority ever produced. -/
def garbageSigTok : IntentToken :=
  { tok1 with signature := "not-a-signature", expires_at := 1000 }

/-- C4 counterexample: `verify_token` returns the same bare `false` for
an expired token and for a token missing its signature, so the outcome
does not distinguish "expired" from "forged/malformed"; and it returns
`true` for an arbitrary non-empty signature, so no signature validity
against the authority's public key is checked. -/
theorem verify_token_counterexample :
    verify_token expiredTok 200 = false ∧
    verify_token noSigTok 200 = false ∧
    verify_token expiredTok 200 = verify_token noSigTok 200 ∧
    verify_token garbageSigTok 200 = true := by
  refine ⟨by decide, by decide, by decide, by decide⟩

/-- C4 amended: `verify_token` checks only expiry (first) and presence of
the signature and plan hash, returning a bare boolean: it is `true`
exactly when the token is unexpired and both fields are non-empty.  No
cryptographic signature verification happens, and distinct failure
causes are not distinguishable from the result. -/
theorem verify_token_characterization (t : IntentToken) (now : Int) :
    verify_token t now = true ↔
      (t.is_expired now = false ∧ t.signature ≠ "" ∧ t.plan_hash ≠ "") := by
  unfold verify_token
  constructor
  · intro h
    by_cases he : t.is_expired now = true
    · simp [he] at h
    · rw [Bool.not_eq_true] at he
      simp [he] at h ⊢
      rcases h with ⟨h1, h2⟩
      exact ⟨h1, h2⟩
  · rintro ⟨he, hs, hp⟩
    simp [he, hs, hp]

/-! ## C5: the token cache never deduplicates issuance -/

/-- C5 amended: `get_intent_token` never reads or writes the token cache
created in `__init__`, and every call performs its own backend issuance
request. -/
theorem get_intent_token_cache_unused (st : ClientState) (plan : Json)
    (policy : Option Json) (validity now : Int) (data : List (String × Json)) :
    (get_intent_token st plan policy validity now data).1.token_cache =
        st.token_cache ∧
    (get_intent_token st plan policy validity now data).1.issuance_requests =
        st.issuance_requests + 1 := by
  unfold get_intent_token
  split <;> exact ⟨rfl, rfl⟩

/-- A sample plan sent for issuance. -/
def issuePlan : Json :=
  .obj [("goal", .str "g"), ("steps", .arr [stepA, stepB1, stepC])]

/-- A successful backend issuance response. -/
def issueResp : List (String × Json) :=
  [("success", .bool true),
   ("token", .obj [("signature", .str "sig")]),
   ("plan_hash", .str "h1"),
   ("merkle_root", .str "MR"),
   ("intent_reference", .str "t1"),
   ("composite_identity", .str "ci"),
   ("step_proofs", .arr [proof0, proof1, proof2])]

/-- C5 counterexample: two identical get-token requests against the
freshly initialized (empty) cache, the first token still unexpired,
cause two backend issuance requests — not the single one the claim
requires. -/
theorem get_intent_token_two_calls_two_issuances :
    (get_intent_token
        (get_intent_token initialClientState issuePlan none 300 0 issueResp).1
        issuePlan none 300 0 issueResp).1.issuance_requests = 2 ∧
    ¬ (get_intent_token
        (get_intent_token initialClientState issuePlan none 300 0 issueResp).1
        issuePlan none 300 0 issueResp).1.issuance_requests = 1 := by
  refine ⟨rfl, by decide⟩

/-! ## C7: the delegation HTTP-error handler raises TypeError -/

/-- C7: when the delegation service rejects the request with an HTTP
error status, the handler's own
`DelegationException(..., delegation_id=..., status_code=...)` call
raises `TypeError` (the constructor accepts only `message` and
`target_agent`), and that `TypeError` — not a `DelegationException` —
is what escapes `delegate`. -/
theorem delegate_http_error_raises_type_error (status : Nat) (body : String) :
    delegateHttpError status body = .typeError (typeErrMsg "delegation_id") ∧
    ∀ m, delegateHttpError status body ≠ RaisedError.delegationExc m := by
  refine ⟨rfl, ?_⟩
  intro m h
  have hv : delegateHttpError status body =
      .typeError (typeErrMsg "delegation_id") := rfl
  rw [hv] at h
  exact nomatch h

/-! ## C9: IntentToken is immutable -/

/-- Read-only wrapper exposing that `verify_token` returns its result
alongside the untouched token (the Python body contains no field
assignment). -/
def verify_tokenSt (t : IntentToken) (now : Int) : Bool × IntentToken :=
  (verify_token t now, t)

/-- Read-only wrapper for the `invoke` pipeline. -/
def invokeSt (t : IntentToken) (now : Int) (mcp action : String)
    (mp : Option Json) : Except InvokeError InvokeRequest × IntentToken :=
  (invoke t now mcp action mp, t)

/-- Read-only wrapper for `delegate`: the parent token is returned
untouched next to the result. -/
def delegateSt (parent : IntentToken) (dpk : String) (now : Int)
    (data : List (String × Json)) :
    Except RaisedError DelegationResult × IntentToken :=
  (delegate parent dpk now data, parent)

/-- C9: `IntentToken` is frozen — assigning any field raises (pydantic
`ConfigDict(frozen=True)`) — and the token-consuming operations
(`verify_token`, `invoke`, `delegate`) leave every field of the token
they were given unchanged. -/
theorem intent_token_immutable :
    (∀ f : TokenField, IntentToken.setAttrRaises f = true) ∧
    (∀ (t : IntentToken) (now : Int), (verify_tokenSt t now).2 = t) ∧
    (∀ (t : IntentToken) (now : Int) (mcp action : String) (mp : Option Json),
      (invokeSt t now mcp action mp).2 = t) ∧
    (∀ (parent : IntentToken) (dpk : String) (now : Int)
      (data : List (String × Json)), (delegateSt parent dpk now data).2 = parent) :=
  ⟨fun _ => rfl, fun _ _ => rfl, fun _ _ _ _ _ => rfl, fun _ _ _ _ => rfl⟩

/-! ## C10: create_plan and Plan.to_dict -/

/-- C10: `create_plan` raises `PlanError` on an empty action list, and on
a non-empty list returns a plan with exactly the given goal and actions
in order; `Plan.to_dict` keeps the actions in that order with the same
count. -/
theorem create_plan_spec (goal : String) (actions : List Armoriq.Action) :
    (actions = [] →
      Armoriq.create_plan goal actions =
        .error "Plan must contain at least one action") ∧
    (actions ≠ [] → ∃ p : Armoriq.Plan,
      Armoriq.create_plan goal actions = .ok p ∧
      p.goal = goal ∧ p.actions = actions ∧
      Armoriq.Plan.to_dict p =
        .obj [("goal", .str goal),
              ("actions", .arr (actions.map Armoriq.Action.to_dict))] ∧
      (actions.map Armoriq.Action.to_dict).length = actions.length) := by
  constructor
  · intro h
    subst h
    rfl
  · intro h
    refine ⟨{ goal := goal, actions := actions, plan_id := none }, ?_, rfl, rfl, ?_, ?_⟩
    · unfold Armoriq.create_plan
      simp [List.isEmpty_iff, h]
    · rfl
    · exact List.length_map actions Armoriq.Action.to_dict

/-- A sample action for the C10 witness. -/
def sampleAction : Armoriq.Action :=
  { tool := "get_weather", params := .obj [("city", .str "Boston")],
    description := none }

/-- Witness for C10 at a concrete goal and one-action list. -/
theorem create_plan_spec_witness :
    (Armoriq.create_plan "w" [] =
      .error "Plan must contain at least one action") ∧
    (∃ p : Armoriq.Plan,
      Armoriq.create_plan "w" [sampleAction] = .ok p ∧
      p.goal = "w" ∧ p.actions = [sampleAction] ∧
      Armoriq.Plan.to_dict p =
        .obj [("goal", .str "w"),
              ("actions", .arr ([sampleAction].map Armoriq.Action.to_dict))] ∧
      ([sampleAction].map Armoriq.Action.to_dict).length = [sampleAction].length) :=
  ⟨(create_plan_spec "w" []).1 rfl,
   (create_plan_spec "w" [sampleAction]).2 (by simp)⟩

/-! ## Helper lemmas about step selection in invoke -/

/-- What `invoke` reads from a plan step: whether it is a dict and its
"action" entry.  Both the scan and the digested leaf value factor
through this view. -/
def stepView : Json → Option Json
  | .obj kvs => jlookup kvs "action"
  | _ => none

theorem stepMatches_eq_view (s : Json) (a : String) :
    stepMatches s a =
      (match stepView s with
       | some (.str x) => x == a
       | _ => false) := by
  cases s <;> rfl

theorem leafValueFor_eq_view (s : Json) (a : String) :
    leafValueFor s a = (stepView s).getD (.str a) := by
  cases s <;> rfl

theorem stepMatches_congr {s1 s2 : Json} (h : stepView s1 = stepView s2)
    (a : String) : stepMatches s1 a = stepMatches s2 a := by
  rw [stepMatches_eq_view, stepMatches_eq_view, h]

theorem leafValueFor_congr {s1 s2 : Json} (h : stepView s1 = stepView s2)
    (a : String) : leafValueFor s1 a = leafValueFor s2 a := by
  rw [leafValueFor_eq_view, leafValueFor_eq_view, h]

theorem findStepIndexAux_congr (a : String) :
    ∀ (l1 l2 : List Json) (k : Nat),
      l1.map stepView = l2.map stepView →
      findStepIndexAux a k l1 = findStepIndexAux a k l2 := by
  intro l1
  induction l1 with
  | nil =>
    intro l2 k h
    cases l2 with
    | nil => rfl
    | cons y ys => simp at h
  | cons x xs ih =>
    intro l2 k h
    cases l2 with
    | nil => simp at h
    | cons y ys =>
      simp only [List.map_cons, List.cons.injEq] at h
      rw [findStepIndexAux, findStepIndexAux, stepMatches_congr h.1 a]
      by_cases hm : stepMatches y a = true
      · simp [hm]
      · rw [Bool.not_eq_true] at hm
        simp only [hm, if_false]
        exact ih ys (k + 1) h.2

theorem findStepIndex_congr {l1 l2 : List Json} (a : String)
    (h : l1.map stepView = l2.map stepView) :
    findStepIndex l1 a = findStepIndex l2 a :=
  findStepIndexAux_congr a l1 l2 0 h

/-- The scan with accumulator `k` returns the index of the first match,
offset by `k`. -/
theorem findStepIndexAux_spec (a : String) :
    ∀ (steps : List Json) (k idx : Nat),
      findStepIndexAux a k steps = some idx →
      k ≤ idx ∧ idx - k < steps.length ∧
      (∃ s, steps[idx - k]? = some s ∧ stepMatches s a = true) ∧
      (∀ j, j < idx - k → ∀ s, steps[j]? = some s →
        stepMatches s a = false) := by
  intro steps
  induction steps with
  | nil =>
    intro k idx h
    simp [findStepIndexAux] at h
  | cons s rest ih =>
    intro k idx h
    rw [findStepIndexAux] at h
    by_cases hm : stepMatches s a = true
    · rw [hm, if_pos rfl] at h
      injection h with h
      subst h
      refine ⟨le_refl k, by simp, ⟨s, by simp, hm⟩, ?_⟩
      intro j hj
      omega
    · rw [Bool.not_eq_true] at hm
      rw [hm] at h
      simp only [Bool.false_eq_true, if_false] at h
      obtain ⟨hk, hlen, ⟨s', hs', hms'⟩, hbefore⟩ := ih (k + 1) idx h
      have hk' : k ≤ idx := by omega
      have hsub : idx - k = (idx - (k + 1)) + 1 := by omega
      refine ⟨hk', by simp; omega, ⟨s', ?_, hms'⟩, ?_⟩
      · rw [hsub]
        simpa using hs'
      · intro j hj t ht
        cases j with
        | zero =>
          simp at ht
          subst ht
          exact hm
        | succ j' =>
          simp at ht
          exact hbefore j' (by omega) t ht

/-- `findStepIndex` returns the index of the first step whose action
field equals the requested action: that step matches, and no earlier
step does. -/
theorem findStepIndex_spec {steps : List Json} {a : String} {idx : Nat}
    (h : findStepIndex steps a = some idx) :
    idx < steps.length ∧
    (∃ s, steps[idx]? = some s ∧ stepMatches s a = true) ∧
    (∀ j, j < idx → ∀ s, steps[j]? = some s → stepMatches s a = false) := by
  obtain ⟨_, hlen, hex, hbefore⟩ := findStepIndexAux_spec a steps 0 idx h
  simpa using ⟨hlen, hex, hbefore⟩

/-! ## C2: step selection is first-match, not index-based -/

/-- C2 counterexample: in a plan containing action "B" at both index 0
and index 2, `invoke` has no step-index parameter and always verifies
the leaf at index 0 with the proof `step_proofs[0]`; the committed step
at index 2 can never be the one selected. -/
theorem invoke_duplicate_action_picks_first :
    Except.map (fun r => (r.step_index, r.merkle_proof))
        (invoke tokDup 10 "m" "B" none) = .ok (0, some proof0) ∧
    stepMatches ((planStepsOf tokDup.raw_token)[2]?.getD (.obj [])) "B" = true ∧
    (0 : Nat) ≠ 2 := by
  refine ⟨rfl, rfl, by decide⟩

/-- C2 amended: `invoke` identifies the committed step by scanning the
plan for the first step whose action field equals the requested action
name (no caller-supplied step index exists): the selected index is the
first match, the Merkle proof is taken from `step_proofs` at that same
index, and no earlier step matches. -/
theorem invoke_selects_first_match (t : IntentToken) (now : Int)
    (mcp action : String) (idx : Nat) (p : Json)
    (h1 : t.is_expired now = false)
    (h2 : findStepIndex (planStepsOf t.raw_token) action = some idx)
    (h3 : t.step_proofs[idx]? = some p) :
    Except.map (fun r => (r.step_index, r.csrg_path, r.merkle_proof))
        (invoke t now mcp action none) =
      .ok (idx, "/steps/[" ++ toString idx ++ "]/action",
        if pyTruthy p then some p else none) ∧
    (∀ j, j < idx → ∀ s, (planStepsOf t.raw_token)[j]? = some s →
      stepMatches s action = false) ∧
    (∃ s, (planStepsOf t.raw_token)[idx]? = some s ∧
      stepMatches s action = true) := by
  obtain ⟨hlen, hex, hbefore⟩ := findStepIndex_spec h2
  refine ⟨?_, hbefore, hex⟩
  have hidx : idx < t.step_proofs.length := by
    by_contra hc
    rw [List.getElem?_eq_none (by omega)] at h3
    exact nomatch h3
  have hne : t.step_proofs.isEmpty = false := by
    cases hsp : t.step_proofs with
    | nil => rw [hsp] at hidx; simp at hidx
    | cons a l => rfl
  unfold invoke
  simp only [h1, Bool.false_eq_true, if_false, h2]
  simp [pyTruthyOpt, hne, hidx, h3]
  rfl

/-- Witness for C2 at the duplicate-action token: the hypotheses hold at
index 0 with proof `proof0`, and the theorem's conclusion follows. -/
theorem invoke_selects_first_match_witness :
    tokDup.is_expired 10 = false ∧
    findStepIndex (planStepsOf tokDup.raw_token) "B" = some 0 ∧
    tokDup.step_proofs[0]? = some proof0 ∧
    (Except.map (fun r => (r.step_index, r.csrg_path, r.merkle_proof))
        (invoke tokDup 10 "m" "B" none) =
      .ok (0, "/steps/[" ++ toString 0 ++ "]/action",
        if pyTruthy proof0 then some proof0 else none) ∧
    (∀ j, j < 0 → ∀ s, (planStepsOf tokDup.raw_token)[j]? = some s →
      stepMatches s "B" = false) ∧
    (∃ s, (planStepsOf tokDup.raw_token)[0]? = some s ∧
      stepMatches s "B" = true)) :=
  ⟨rfl, rfl, rfl,
   invoke_selects_first_match tokDup 10 "m" "B" 0 proof0 rfl rfl rfl⟩

/-! ## C1: the value digest covers only the step's action field -/

/-- C1 counterexample: two tokens whose plans differ exactly in the
invoked step's params (`x = 1` vs the tampered `x = 2`) produce the
same value digest for the same call, so the digest is not the hash of
the whole step and tampering with params does not change it. -/
theorem invoke_params_tamper_same_digest :
    Json.getD ((planStepsOf tok1.raw_token)[1]?.getD (.obj [])) "params" .null =
      .obj [("x", .num 1)] ∧
    Json.getD ((planStepsOf tok2.raw_token)[1]?.getD (.obj [])) "params" .null =
      .obj [("x", .num 2)] ∧
    Json.num 1 ≠ Json.num 2 ∧
    Except.map (fun r => r.value_digest) (invoke tok1 10 "m" "B" none) =
      Except.map (fun r => r.value_digest) (invoke tok2 10 "m" "B" none) := by
  refine ⟨rfl, rfl, ?_, rfl⟩
  intro h
  injection h with h'
  exact absurd h' (by decide)

/-- C1 amended: the value digest presented for proof verification is the
SHA-256 of the canonical serialization of the invoked step's action
field only (the leaf at path `/steps/[i]/action`): for any two tokens
whose plan steps agree on their action fields — regardless of params,
proofs, or any other content — the same call yields the same step
index, path, and value digest. -/
theorem invoke_digest_from_action_field_only (t1 t2 : IntentToken)
    (now : Int) (mcp action : String) (mp1 mp2 : Option Json)
    (hv : (planStepsOf t1.raw_token).map stepView =
      (planStepsOf t2.raw_token).map stepView)
    (h1 : t1.is_expired now = false) (h2 : t2.is_expired now = false) :
    Except.map (fun r => (r.step_index, r.csrg_path, r.value_digest))
        (invoke t1 now mcp action mp1) =
      Except.map (fun r => (r.step_index, r.csrg_path, r.value_digest))
        (invoke t2 now mcp action mp2) := by
  have hfind := findStepIndex_congr action hv
  unfold invoke
  simp only [h1, h2, Bool.false_eq_true, if_false, hfind]
  cases hidx : findStepIndex (planStepsOf t2.raw_token) action with
  | none => rfl
  | some idx =>
    have hm := congrArg (fun l => l[idx]?) hv
    simp only [List.getElem?_map] at hm
    have hstep : stepView ((planStepsOf t1.raw_token)[idx]?.getD (.obj [])) =
        stepView ((planStepsOf t2.raw_token)[idx]?.getD (.obj [])) := by
      cases e1 : (planStepsOf t1.raw_token)[idx]? with
      | none =>
        cases e2 : (planStepsOf t2.raw_token)[idx]? with
        | none => rfl
        | some s2 => rw [e1, e2] at hm; exact nomatch hm
      | some s1 =>
        cases e2 : (planStepsOf t2.raw_token)[idx]? with
        | none => rw [e1, e2] at hm; exact nomatch hm
        | some s2 =>
          rw [e1, e2] at hm
          simp only [Option.getD_some]
          simp at hm
          exact hm
    dsimp only
    rw [leafValueFor_congr hstep action]
    rfl

/-- Witness for C1 at the params-tampered token pair. -/
theorem invoke_digest_from_action_field_only_witness :
    (planStepsOf tok1.raw_token).map stepView =
      (planStepsOf tok2.raw_token).map stepView ∧
    tok1.is_expired 10 = false ∧ tok2.is_expired 10 = false ∧
    Except.map (fun r => (r.step_index, r.csrg_path, r.value_digest))
        (invoke tok1 10 "m" "B" none) =
      Except.map (fun r => (r.step_index, r.csrg_path, r.value_digest))
        (invoke tok2 10 "m" "B" none) :=
  ⟨rfl, rfl, rfl,
   invoke_digest_from_action_field_only tok1 tok2 10 "m" "B" none none
     rfl rfl rfl⟩

/-! ## C6: delegation does not carry the plan commitment forward -/

/-- A delegation-service response whose payload omits `plan_hash`,
`step_proofs`, and `merkle_root`. -/
def delegData : List (String × Json) :=
  [("delegation", .obj [("token_id", .str "d1"), ("expires_at", .num 50)]),
   ("delegation_id", .str "del-1")]

/-- C6 counterexample: delegating `tok1` (which carries three step
proofs and a Merkle root in its raw token) yields a delegated token
whose `step_proofs` are empty and whose raw token has no
`merkle_root` — the parent's plan commitment is not carried forward
unchanged. -/
theorem delegate_drops_proofs_and_root :
    Except.map (fun r => r.delegated_token.step_proofs)
        (delegate tok1 "dpk" 0 delegData) = .ok [] ∧
    tok1.step_proofs.length = 3 ∧
    Except.map (fun r => jlookup r.delegated_token.raw_token "merkle_root")
        (delegate tok1 "dpk" 0 delegData) = .ok none ∧
    jlookup tok1.raw_token "merkle_root" = some (.str "MR") :=
  ⟨rfl, rfl, rfl, rfl⟩

/-- C6 amended: the delegated token is built from the delegation
service's response, not from the parent: its `step_proofs` and
`raw_token` are independent of the parent token (when the response
omits the proofs they default to the empty list, and the raw token
contains only the response payload, dropping the parent's
`merkle_root`); only `plan_hash` is inherited, and only as a fallback
when the response does not provide one. -/
theorem delegate_commitment_from_response (p1 p2 : IntentToken)
    (dpk : String) (now : Int) (data : List (String × Json))
    (r1 r2 : DelegationResult)
    (h1 : delegate p1 dpk now data = .ok r1)
    (h2 : delegate p2 dpk now data = .ok r2) :
    r1.delegated_token.step_proofs = r2.delegated_token.step_proofs ∧
    r1.delegated_token.raw_token = r2.delegated_token.raw_token ∧
    (r1.delegated_token.plan_hash = r2.delegated_token.plan_hash ∨
      (r1.delegated_token.plan_hash = p1.plan_hash ∧
       r2.delegated_token.plan_hash = p2.plan_hash)) := by
  unfold delegate at h1 h2
  cases hpay : delegationPayload data with
  | none =>
    rw [hpay] at h1
    exact nomatch h1
  | some dtd =>
    rw [hpay] at h1 h2
    simp only [Except.ok.injEq] at h1 h2
    subst h1
    subst h2
    refine ⟨rfl, rfl, ?_⟩
    cases dtd with
    | obj kvs =>
      cases hq : jlookup kvs "plan_hash" with
      | none => right; exact ⟨rfl, rfl⟩
      | some v =>
        cases v with
        | str s => left; rfl
        | null => right; exact ⟨rfl, rfl⟩
        | bool b => right; exact ⟨rfl, rfl⟩
        | num n => right; exact ⟨rfl, rfl⟩
        | arr xs => right; exact ⟨rfl, rfl⟩
        | obj kvs2 => right; exact ⟨rfl, rfl⟩
    | null => right; exact ⟨rfl, rfl⟩
    | bool b => right; exact ⟨rfl, rfl⟩
    | num n => right; exact ⟨rfl, rfl⟩
    | str s => right; exact ⟨rfl, rfl⟩
    | arr xs => right; exact ⟨rfl, rfl⟩

/-- A second parent token with a different plan hash, different proofs,
and a different Merkle root, for the C6 witness. -/
def tokAlt : IntentToken :=
  { tok1 with
    plan_hash := "QH"
    step_proofs := [proof2]
    raw_token := [("plan", .obj []), ("merkle_root", .str "MR2")] }

/-- The delegated token built from `delegData` for a parent whose plan
hash is `ph` (the response provides none, so the parent's is used). -/
def delegatedTokFor (ph : String) : IntentToken :=
  { token_id := "d1", plan_hash := ph, plan_id := none, signature := "",
    issued_at := 0, expires_at := 50, policy := .obj [],
    composite_identity := "", client_info := none, policy_validation := none,
    step_proofs := [], total_steps := 0,
    raw_token := [("token",
      .obj [("token_id", .str "d1"), ("expires_at", .num 50)])] }

/-- The delegation result for `delegData` with parent plan hash `ph`. -/
def delegResFor (ph : String) : DelegationResult :=
  { delegation_id := "del-1", delegated_token := delegatedTokFor ph,
    delegate_public_key := "dpk", expires_at := 50, status := "delegated" }

/-- Witness for C6: two parents with different plan hashes delegated
against the same response receive identical step proofs and raw tokens,
and each one's delegated plan hash falls back to its own. -/
theorem delegate_commitment_from_response_witness :
    delegate tok1 "dpk" 0 delegData = .ok (delegResFor "PH") ∧
    delegate tokAlt "dpk" 0 delegData = .ok (delegResFor "QH") ∧
    ((delegResFor "PH").delegated_token.step_proofs =
       (delegResFor "QH").delegated_token.step_proofs ∧
     (delegResFor "PH").delegated_token.raw_token =
       (delegResFor "QH").delegated_token.raw_token ∧
     ((delegResFor "PH").delegated_token.plan_hash =
        (delegResFor "QH").delegated_token.plan_hash ∨
      ((delegResFor "PH").delegated_token.plan_hash = tok1.plan_hash ∧
       (delegResFor "QH").delegated_token.plan_hash = tokAlt.plan_hash))) :=
  ⟨rfl, rfl,
   delegate_commitment_from_response tok1 tokAlt "dpk" 0 delegData
     (delegResFor "PH") (delegResFor "QH") rfl rfl⟩

/-! ## C8: canonical serialization — sorting lemmas -/

/-- Propositional form of the key ordering. -/
def PairLe (p q : String × Json) : Prop := p.1 ≤ q.1

/-- Strict key ordering. -/
def PairLt (p q : String × Json) : Prop := p.1 < q.1

theorem keyLe_iff (p q : String × Json) : keyLe p q = true ↔ p.1 ≤ q.1 := by
  simp [keyLe]

theorem insertPair_perm (p : String × Json) (l : List (String × Json)) :
    List.Perm (insertPair p l) (p :: l) := by
  induction l with
  | nil => exact List.Perm.refl _
  | cons q qs ih =>
    rw [insertPair]
    by_cases h : keyLe p q = true
    · rw [if_pos h]
    · rw [if_neg h]
      exact (ih.cons q).trans (List.Perm.swap p q qs)

theorem sortPairs_perm (l : List (String × Json)) :
    List.Perm (sortPairs l) l := by
  induction l with
  | nil => exact List.Perm.refl _
  | cons p ps ih => exact (insertPair_perm p (sortPairs ps)).trans (ih.cons p)

theorem mem_insertPair {x p : String × Json} {l : List (String × Json)} :
    x ∈ insertPair p l ↔ x ∈ p :: l :=
  (insertPair_perm p l).mem_iff

theorem insertPair_sorted (p : String × Json) {l : List (String × Json)}
    (h : l.Pairwise PairLe) : (insertPair p l).Pairwise PairLe := by
  induction l with
  | nil => simp [insertPair]
  | cons q qs ih =>
    rw [insertPair]
    by_cases hk : keyLe p q = true
    · rw [if_pos hk]
      have hpq : p.1 ≤ q.1 := (keyLe_iff p q).mp hk
      refine List.Pairwise.cons ?_ h
      intro r hr
      rcases List.mem_cons.mp hr with rfl | hr'
      · exact hpq
      · exact le_trans hpq (List.rel_of_pairwise_cons h hr')
    · rw [if_neg hk]
      have hqp : q.1 ≤ p.1 := by
        rcases le_total p.1 q.1 with hle | hle
        · exact absurd ((keyLe_iff p q).mpr hle) hk
        · exact hle
      refine List.Pairwise.cons ?_ (ih h.of_cons)
      intro r hr
      rcases List.mem_cons.mp (mem_insertPair.mp hr) with rfl | hr'
      · exact hqp
      · exact List.rel_of_pairwise_cons h hr'

theorem sortPairs_sorted (l : List (String × Json)) :
    (sortPairs l).Pairwise PairLe := by
  induction l with
  | nil => exact List.Pairwise.nil
  | cons p ps ih => exact insertPair_sorted p ih

/-- Inserting an element no larger than the head leaves a sorted list
unchanged apart from consing. -/
theorem insertPair_of_sorted {p : String × Json} {l : List (String × Json)}
    (h : ∀ q ∈ l, p.1 ≤ q.1) : insertPair p l = p :: l := by
  cases l with
  | nil => rfl
  | cons q qs =>
    rw [insertPair, if_pos ((keyLe_iff p q).mpr (h q (List.mem_cons_self q qs)))]

/-- `sortPairs` is the identity on a sorted list. -/
theorem sortPairs_of_sorted {l : List (String × Json)}
    (h : l.Pairwise PairLe) : sortPairs l = l := by
  induction l with
  | nil => rfl
  | cons p ps ih =>
    rw [sortPairs, ih h.of_cons]
    exact insertPair_of_sorted (fun q hq => List.rel_of_pairwise_cons h hq)

/-- Two strictly key-sorted permutations of each other are equal. -/
theorem eq_of_perm_of_pairLt :
    ∀ {l1 l2 : List (String × Json)}, List.Perm l1 l2 →
      l1.Pairwise PairLt → l2.Pairwise PairLt → l1 = l2 := by
  intro l1
  induction l1 with
  | nil =>
    intro l2 hperm _ _
    exact (List.Perm.eq_nil hperm.symm).symm
  | cons a t1 ih =>
    intro l2 hperm hs1 hs2
    cases l2 with
    | nil => exact nomatch List.Perm.eq_nil hperm
    | cons b t2 =>
      have hab : a = b := by
        have ha : a ∈ b :: t2 := hperm.mem_iff.mp (List.mem_cons_self a t1)
        have hb : b ∈ a :: t1 := hperm.symm.mem_iff.mp (List.mem_cons_self b t2)
        rcases List.mem_cons.mp ha with h1 | h1
        · exact h1
        · rcases List.mem_cons.mp hb with h2 | h2
          · exact h2.symm
          · have hba : PairLt b a := List.rel_of_pairwise_cons hs2 h1
            have hab' : PairLt a b := List.rel_of_pairwise_cons hs1 h2
            exact absurd hab' (lt_asymm hba)
      subst hab
      rw [ih hperm.cons_inv hs1.of_cons hs2.of_cons]

/-! ## C8: entry and key lemmas -/

theorem map_fst_sortKeysEntries (l : List (String × Json)) :
    (sortKeysEntries l).map Prod.fst = l.map Prod.fst := by
  induction l with
  | nil => rfl
  | cons p ps ih =>
    cases p with
    | mk k v => rw [sortKeysEntries, List.map_cons, List.map_cons, ih]

theorem length_sortKeysEntries (l : List (String × Json)) :
    (sortKeysEntries l).length = l.length := by
  have := congrArg List.length (map_fst_sortKeysEntries l)
  simpa using this

theorem keysNodupB_nodup {l : List (String × Json)}
    (h : keysNodupB l = true) : (l.map Prod.fst).Nodup := by
  induction l with
  | nil => simp
  | cons p ps ih =>
    cases p with
    | mk k v =>
      rw [keysNodupB, Bool.and_eq_true] at h
      rw [List.map_cons, List.nodup_cons]
      refine ⟨?_, ih h.2⟩
      intro hmem
      obtain ⟨q, hq, hqk⟩ := List.mem_map.mp hmem
      have := (List.all_eq_true.mp h.1) q hq
      simp at this
      exact this hqk

theorem mem_sortKeysEntries {l : List (String × Json)} {k : String}
    {v : Json} (h : (k, v) ∈ l) : (k, sortKeys v) ∈ sortKeysEntries l := by
  induction l with
  | nil => exact absurd h (by simp)
  | cons p ps ih =>
    cases p with
    | mk k0 v0 =>
      rw [sortKeysEntries]
      rcases List.mem_cons.mp h with heq | hmem
      · injection heq with h1 h2
        subst h1; subst h2
        exact List.mem_cons_self _ _
      · exact List.mem_cons_of_mem _ (ih hmem)

theorem sortKeysEntries_mem_inv {l : List (String × Json)}
    {x : String × Json} (h : x ∈ sortKeysEntries l) :
    ∃ k v, (k, v) ∈ l ∧ x = (k, sortKeys v) := by
  induction l with
  | nil => exact absurd h (by simp [sortKeysEntries])
  | cons p ps ih =>
    cases p with
    | mk k0 v0 =>
      rw [sortKeysEntries] at h
      rcases List.mem_cons.mp h with heq | hmem
      · exact ⟨k0, v0, List.mem_cons_self _ _, heq⟩
      · obtain ⟨k, v, hkv, hx⟩ := ih hmem
        exact ⟨k, v, List.mem_cons_of_mem _ hkv, hx⟩

theorem jlookup_mem {l : List (String × Json)} {k : String} {w : Json}
    (h : jlookup l k = some w) : (k, w) ∈ l := by
  induction l with
  | nil => exact nomatch h
  | cons p ps ih =>
    cases p with
    | mk k0 v0 =>
      rw [jlookup] at h
      by_cases hk : k0 = k
      · rw [if_pos hk] at h
        injection h with h
        subst hk; subst h
        exact List.mem_cons_self _ _
      · rw [if_neg hk] at h
        exact List.mem_cons_of_mem _ (ih h)

theorem structEqObj_forall {a b : List (String × Json)}
    (h : structEqObj a b = true) :
    ∀ k v, (k, v) ∈ a →
      ∃ w, jlookup b k = some w ∧ structEqB v w = true := by
  induction a with
  | nil =>
    intro k v hv
    exact absurd hv (by simp)
  | cons p ps ih =>
    cases p with
    | mk k0 v0 =>
      rw [structEqObj, Bool.and_eq_true] at h
      intro k v hv
      rcases List.mem_cons.mp hv with heq | hmem
      · injection heq with h1 h2
        subst h2
        rw [h1]
        cases hjl : jlookup b k0 with
        | none => rw [hjl] at h; exact nomatch h.1
        | some w =>
          rw [hjl] at h
          exact ⟨w, rfl, h.1⟩
      · exact ih h.2 k v hmem

/-! ## C8: structural equality implies equal normal forms -/

theorem pairwise_lt_of_le_nodup :
    ∀ {l : List (String × Json)}, l.Pairwise PairLe →
      (l.map Prod.fst).Nodup → l.Pairwise PairLt := by
  intro l
  induction l with
  | nil =>
    intro _ _
    exact List.Pairwise.nil
  | cons p ps ih =>
    intro hle hnd
    rw [List.map_cons, List.nodup_cons] at hnd
    rw [List.pairwise_cons] at hle ⊢
    refine ⟨?_, ih hle.2 hnd.2⟩
    intro q hq
    have hle1 : p.1 ≤ q.1 := hle.1 q hq
    have hne1 : p.1 ≠ q.1 := by
      intro heq
      exact hnd.1 (heq ▸ List.mem_map_of_mem Prod.fst hq)
    exact lt_of_le_of_ne hle1 hne1

theorem sizeOf_mem_arr {x : Json} {xs : List Json} (h : x ∈ xs) :
    sizeOf x < sizeOf (Json.arr xs) := by
  have h1 := List.sizeOf_lt_of_mem h
  have h2 : sizeOf (Json.arr xs) = 1 + sizeOf xs := by simp
  omega

theorem sizeOf_mem_obj {k : String} {v : Json}
    {kvs : List (String × Json)} (h : (k, v) ∈ kvs) :
    sizeOf v < sizeOf (Json.obj kvs) := by
  have h1 := List.sizeOf_lt_of_mem h
  have h2 : sizeOf (k, v) = 1 + sizeOf k + sizeOf v := rfl
  have h3 : sizeOf (Json.obj kvs) = 1 + sizeOf kvs := by simp
  omega

/-- Pointwise congruence for `sortKeysList`, given the recursion
hypothesis for elements. -/
theorem sortKeysList_congr_of (n : Nat)
    (ih : ∀ a b : Json, sizeOf a ≤ n → structEqB a b = true →
      sortKeys a = sortKeys b) :
    ∀ (xs ys : List Json), (∀ z ∈ xs, sizeOf z ≤ n) →
      structEqArr xs ys = true → sortKeysList xs = sortKeysList ys := by
  intro xs
  induction xs with
  | nil =>
    intro ys _ h'
    cases ys with
    | nil => rfl
    | cons y ys' => exact nomatch h'
  | cons x xs' ihl =>
    intro ys hsz h'
    cases ys with
    | nil => exact nomatch h'
    | cons y ys' =>
      have h2 : structEqB x y = true ∧ structEqArr xs' ys' = true := by
        simpa [structEqArr] using h'
      rw [sortKeysList, sortKeysList,
        ih x y (hsz x (List.mem_cons_self x xs')) h2.1,
        ihl ys' (fun z hz => hsz z (List.mem_cons_of_mem x hz)) h2.2]

/-- Structurally equal values have the same key-sorted normal form
(strong induction on size). -/
theorem sortKeys_congr_aux :
    ∀ n : Nat, ∀ a b : Json, sizeOf a ≤ n → structEqB a b = true →
      sortKeys a = sortKeys b := by
  intro n
  induction n with
  | zero =>
    intro a b hsz _
    exact absurd hsz (by cases a <;> simp)
  | succ n ih =>
    intro a b hsz h
    cases a with
    | null =>
      cases b with
      | null => rfl
      | bool y => exact nomatch h
      | num y => exact nomatch h
      | str y => exact nomatch h
      | arr ys => exact nomatch h
      | obj bs => exact nomatch h
    | bool x =>
      cases b with
      | bool y =>
        have hx : x = y := by simpa [structEqB] using h
        rw [hx]
      | null => exact nomatch h
      | num y => exact nomatch h
      | str y => exact nomatch h
      | arr ys => exact nomatch h
      | obj bs => exact nomatch h
    | num x =>
      cases b with
      | num y =>
        have hx : x = y := by simpa [structEqB] using h
        rw [hx]
      | null => exact nomatch h
      | bool y => exact nomatch h
      | str y => exact nomatch h
      | arr ys => exact nomatch h
      | obj bs => exact nomatch h
    | str x =>
      cases b with
      | str y =>
        have hx : x = y := by simpa [structEqB] using h
        rw [hx]
      | null => exact nomatch h
      | bool y => exact nomatch h
      | num y => exact nomatch h
      | arr ys => exact nomatch h
      | obj bs => exact nomatch h
    | arr xs =>
      cases b with
      | null => exact nomatch h
      | bool y => exact nomatch h
      | num y => exact nomatch h
      | str y => exact nomatch h
      | obj bs => exact nomatch h
      | arr ys =>
        have h' : structEqArr xs ys = true := by simpa [structEqB] using h
        show Json.arr (sortKeysList xs) = Json.arr (sortKeysList ys)
        have hsz' : ∀ z ∈ xs, sizeOf z ≤ n := by
          intro z hz
          have h1 := sizeOf_mem_arr hz
          omega
        rw [sortKeysList_congr_of n ih xs ys hsz' h']
    | obj as =>
      cases b with
      | null => exact nomatch h
      | bool y => exact nomatch h
      | num y => exact nomatch h
      | str y => exact nomatch h
      | arr ys => exact nomatch h
      | obj bs =>
        have h' : ((keysNodupB as = true ∧ keysNodupB bs = true) ∧
            as.length = bs.length) ∧ structEqObj as bs = true := by
          simpa [structEqB] using h
        obtain ⟨⟨⟨hna, hnb⟩, hlen⟩, hobj⟩ := h'
        show Json.obj (sortPairs (sortKeysEntries as)) =
          Json.obj (sortPairs (sortKeysEntries bs))
        congr 1
        have hsz' : ∀ (k : String) (v : Json), (k, v) ∈ as → sizeOf v ≤ n := by
          intro k v hm
          have h1 := sizeOf_mem_obj hm
          omega
        have hsub : sortKeysEntries as ⊆ sortKeysEntries bs := by
          intro x hx
          obtain ⟨k, v, hkv, rfl⟩ := sortKeysEntries_mem_inv hx
          obtain ⟨w, hw, hvw⟩ := structEqObj_forall hobj k v hkv
          rw [ih v w (hsz' k v hkv) hvw]
          exact mem_sortKeysEntries (jlookup_mem hw)
        have hnodupA : (sortKeysEntries as).Nodup := by
          refine List.Nodup.of_map Prod.fst ?_
          rw [map_fst_sortKeysEntries]
          exact keysNodupB_nodup hna
        have hlenBA : (sortKeysEntries bs).length ≤ (sortKeysEntries as).length := by
          rw [length_sortKeysEntries, length_sortKeysEntries]
          omega
        have hperm : List.Perm (sortKeysEntries as) (sortKeysEntries bs) :=
          (List.subperm_of_subset hnodupA hsub).perm_of_length_le hlenBA
        have hndA : ((sortPairs (sortKeysEntries as)).map Prod.fst).Nodup := by
          rw [List.Perm.nodup_iff ((sortPairs_perm _).map Prod.fst)]
          rw [map_fst_sortKeysEntries]
          exact keysNodupB_nodup hna
        have hndB : ((sortPairs (sortKeysEntries bs)).map Prod.fst).Nodup := by
          rw [List.Perm.nodup_iff ((sortPairs_perm _).map Prod.fst)]
          rw [map_fst_sortKeysEntries]
          exact keysNodupB_nodup hnb
        have hpermS : List.Perm (sortPairs (sortKeysEntries as))
            (sortPairs (sortKeysEntries bs)) :=
          (sortPairs_perm _).trans (hperm.trans (sortPairs_perm _).symm)
        exact eq_of_perm_of_pairLt hpermS
          (pairwise_lt_of_le_nodup (sortPairs_sorted _) hndA)
          (pairwise_lt_of_le_nodup (sortPairs_sorted _) hndB)

/-- Structurally equal values have the same key-sorted normal form. -/
theorem sortKeys_congr {a b : Json} (h : structEqB a b = true) :
    sortKeys a = sortKeys b :=
  sortKeys_congr_aux (sizeOf a) a b (le_refl _) h

/-! ## C8: idempotence of the normal form -/

theorem sortKeysEntries_insertPair (p : String × Json)
    (l : List (String × Json)) :
    sortKeysEntries (insertPair p l) =
      insertPair (p.1, sortKeys p.2) (sortKeysEntries l) := by
  induction l with
  | nil =>
    cases p with
    | mk k v => rfl
  | cons q qs ih =>
    cases p with
    | mk k v =>
      cases q with
      | mk k0 v0 =>
        rw [insertPair]
        by_cases hk : keyLe (k, v) (k0, v0) = true
        · have hk2 : keyLe ((k, v).1, sortKeys (k, v).2)
              (k0, sortKeys v0) = true := hk
          rw [if_pos hk, sortKeysEntries, sortKeysEntries,
            insertPair, if_pos hk2]
        · have hk2 : ¬ keyLe ((k, v).1, sortKeys (k, v).2)
              (k0, sortKeys v0) = true := hk
          rw [if_neg hk, sortKeysEntries, ih, sortKeysEntries,
            insertPair, if_neg hk2]

theorem sortKeysEntries_sortPairs (l : List (String × Json)) :
    sortKeysEntries (sortPairs l) = sortPairs (sortKeysEntries l) := by
  induction l with
  | nil => rfl
  | cons p ps ih =>
    cases p with
    | mk k v =>
      rw [sortPairs, sortKeysEntries_insertPair, ih, sortKeysEntries,
        sortPairs]

theorem sortKeysEntries_idem_of {l : List (String × Json)}
    (h : ∀ k v, (k, v) ∈ l → sortKeys (sortKeys v) = sortKeys v) :
    sortKeysEntries (sortKeysEntries l) = sortKeysEntries l := by
  induction l with
  | nil => rfl
  | cons p ps ih =>
    cases p with
    | mk k v =>
      rw [sortKeysEntries, sortKeysEntries,
        h k v (List.mem_cons_self _ _),
        ih (fun k' v' hm => h k' v' (List.mem_cons_of_mem _ hm))]

theorem sortKeysList_idem_of {xs : List Json}
    (h : ∀ z ∈ xs, sortKeys (sortKeys z) = sortKeys z) :
    sortKeysList (sortKeysList xs) = sortKeysList xs := by
  induction xs with
  | nil => rfl
  | cons x xs' ih =>
    rw [sortKeysList, sortKeysList,
      h x (List.mem_cons_self _ _),
      ih (fun z hz => h z (List.mem_cons_of_mem _ hz))]

theorem sortKeys_idem_aux :
    ∀ n : Nat, ∀ a : Json, sizeOf a ≤ n →
      sortKeys (sortKeys a) = sortKeys a := by
  intro n
  induction n with
  | zero =>
    intro a hsz
    exact absurd hsz (by cases a <;> simp)
  | succ n ih =>
    intro a hsz
    cases a with
    | null => rfl
    | bool x => rfl
    | num x => rfl
    | str x => rfl
    | arr xs =>
      show Json.arr (sortKeysList (sortKeysList xs)) = Json.arr (sortKeysList xs)
      rw [sortKeysList_idem_of (fun z hz => ih z (by
        have h1 := sizeOf_mem_arr hz
        omega))]
    | obj kvs =>
      show Json.obj (sortPairs (sortKeysEntries
          (sortPairs (sortKeysEntries kvs)))) =
        Json.obj (sortPairs (sortKeysEntries kvs))
      rw [sortKeysEntries_sortPairs,
        sortKeysEntries_idem_of (fun k v hm => ih v (by
          have h1 := sizeOf_mem_obj hm
          omega)),
        sortPairs_of_sorted (sortPairs_sorted (sortKeysEntries kvs))]

/-- `sortKeys` is idempotent. -/
theorem sortKeys_idem (a : Json) : sortKeys (sortKeys a) = sortKeys a :=
  sortKeys_idem_aux (sizeOf a) a (le_refl _)

/-! ## C8: the claim -/

/-- C8: canonicalization is deterministic and key-order independent —
two structurally equal JSON-like values (same key/value pairs at every
level, independent of mapping entry order, keys duplicate-free)
canonicalize to byte-identical strings, hence their SHA-256 value
digests are equal; and canonicalization of an already-normalized value
is idempotent. -/
theorem canonicalization_key_order_independent (a b : Json)
    (h : structEqB a b = true) :
    canonicalJson a = canonicalJson b ∧
    valueDigest (canonicalJson a) = valueDigest (canonicalJson b) ∧
    canonicalJson (sortKeys a) = canonicalJson a := by
  have hs : sortKeys a = sortKeys b := sortKeys_congr h
  have hcanon : canonicalJson a = canonicalJson b := by
    unfold canonicalJson
    rw [hs]
  refine ⟨hcanon, by rw [hcanon], ?_⟩
  unfold canonicalJson
  rw [sortKeys_idem]

/-- A sample value with shuffled object keys at two nesting levels. -/
def jsonShuffled1 : Json :=
  .obj [("b", .num 1),
        ("a", .obj [("y", .arr [.null, .bool true]), ("x", .str "s")])]

/-- The same value with keys in the opposite insertion order. -/
def jsonShuffled2 : Json :=
  .obj [("a", .obj [("x", .str "s"), ("y", .arr [.null, .bool true])]),
        ("b", .num 1)]

/-- Witness for C8 at a concrete pair of key-shuffled values. -/
theorem canonicalization_key_order_independent_witness :
    structEqB jsonShuffled1 jsonShuffled2 = true ∧
    (canonicalJson jsonShuffled1 = canonicalJson jsonShuffled2 ∧
     valueDigest (canonicalJson jsonShuffled1) =
       valueDigest (canonicalJson jsonShuffled2) ∧
     canonicalJson (sortKeys jsonShuffled1) = canonicalJson jsonShuffled1) :=
  ⟨rfl, canonicalization_key_order_independent jsonShuffled1 jsonShuffled2 rfl⟩
